import Mathlib

/-!
Shallow embedding of `src/stacks-core/src/utils.rs`: the contract-name
validator (`ContractName::new` with its regex grammar) and the principal
data model (`StandardPrincipalData`, `PrincipalData`).

Rust strings are modelled as `List Char` (the regex crate matches over
Unicode scalar values, which `Char` models exactly); `str::len`, which
counts UTF-8 bytes, is modelled by `strLen` below.
-/

/-- `CONTRACT_MIN_NAME_LENGTH`: minimum length of a contract name. -/
def CONTRACT_MIN_NAME_LENGTH : Nat := 1

/-- `CONTRACT_MAX_NAME_LENGTH`: maximum length of a contract name. -/
def CONTRACT_MAX_NAME_LENGTH : Nat := 40

/-- Membership in the regex character class `[a-zA-Z]`. -/
def inClassAlpha (c : Char) : Bool :=
  ('a' ≤ c && c ≤ 'z') || ('A' ≤ c && c ≤ 'Z')

/-- Membership in the regex alternative `[a-zA-Z0-9]|[-_]`. -/
def inClassRest (c : Char) : Bool :=
  inClassAlpha c || ('0' ≤ c && c ≤ '9') || c = '-' || c = '_'

/-- The language of `CONTRACT_NAME_REGEX`, i.e. of
`^([a-zA-Z](([a-zA-Z0-9]|[-_])){0,39})$|^__transient$` where the bounds
`{0,39}` come from `CONTRACT_MIN_NAME_LENGTH - 1` and
`CONTRACT_MAX_NAME_LENGTH - 1` in `CONTRACT_NAME_REGEX_STRING`.
Both alternatives are anchored at both ends, so `is_match` holds iff the
whole string is one ASCII letter followed by 0 to 39 characters of the
rest class, or is exactly the literal `__transient`. -/
def contractNameRegexIsMatch (s : List Char) : Bool :=
  (match s with
   | [] => false
   | a :: t =>
       inClassAlpha a
         && decide (CONTRACT_MIN_NAME_LENGTH - 1 ≤ t.length)
         && decide (t.length ≤ CONTRACT_MAX_NAME_LENGTH - 1)
         && t.all inClassRest)
  || decide (s = "__transient".toList)

/-- `ContractNameError`: error type for contract name validation. -/
inductive ContractNameError where
  /-- Invalid contract name length. -/
  | InvalidLength : ContractNameError
  /-- Invalid contract name format. -/
  | InvalidFormat : ContractNameError
deriving DecidableEq, Repr

/-- `ContractName`: validated contract name newtype around a `String`. -/
structure ContractName where
  /-- The wrapped string (the private tuple field `.0` in the source). -/
  val : List Char
deriving DecidableEq, Repr

/-- `str::len` in Rust counts UTF-8 bytes. -/
def strLen (s : List Char) : Nat := (s.map Char.utf8Size).sum

/-- `ContractName::new`: the length pre-check (note the conjunction, as in
the source) followed by the regex match. -/
def ContractName.new (contract_name : List Char) :
    Except ContractNameError ContractName :=
  if strLen contract_name < CONTRACT_MIN_NAME_LENGTH
      ∧ strLen contract_name > CONTRACT_MAX_NAME_LENGTH then
    Except.error ContractNameError.InvalidLength
  else if contractNameRegexIsMatch contract_name then
    Except.ok (ContractName.mk contract_name)
  else
    Except.error ContractNameError.InvalidFormat

/-- `ContractName::as_ref`: read access to the wrapped string. -/
def ContractName.as_ref (c : ContractName) : List Char := c.val

/-- Modelled from the spec: `AddressVersion` comes from the external
address module (`crate::address`, whose source is not part of this
fragment); the spec describes it as an enumerated network/address-kind
tag treated as an already-valid value with identity/equality only, so we
model it as a value type wrapping a tag. -/
structure AddressVersion where
  /-- The version tag. -/
  tag : Nat
deriving DecidableEq, Repr

/-- Modelled from the spec: `StacksAddress` comes from the external
address module (`crate::address`, whose source is not part of this
fragment); the spec describes it as a fixed-size byte identifier treated
as an already-valid value with identity/equality only, so we model it as
a value type wrapping bytes. -/
structure StacksAddress where
  /-- The raw address bytes. -/
  bytes : List Nat
deriving DecidableEq, Repr

/-- `StandardPrincipalData`: a version tag paired with an address
(the positional fields `.0` and `.1` of the source tuple struct). -/
structure StandardPrincipalData where
  /-- The address version (field `.0`). -/
  version : AddressVersion
  /-- The stacks address (field `.1`). -/
  address : StacksAddress
deriving DecidableEq, Repr

/-- `StandardPrincipalData::new`: stores the pair by value. -/
def StandardPrincipalData.new (version : AddressVersion)
    (address : StacksAddress) : StandardPrincipalData :=
  StandardPrincipalData.mk version address

/-- `PrincipalData`: tagged union of the two principal kinds. -/
inductive PrincipalData where
  /-- Standard principal data type. -/
  | Standard : StandardPrincipalData → PrincipalData
  /-- Contract principal data type. -/
  | Contract : StandardPrincipalData → ContractName → PrincipalData

/-- Projection of the contract-name component of a `PrincipalData`,
used to state claims about the `Contract` variant. -/
def PrincipalData.contractNameOf : PrincipalData → Option ContractName
  | PrincipalData.Standard _ => none
  | PrincipalData.Contract _ name => some name

/-! Helper lemmas shared by the claim theorems. -/

/-- The length pre-check of `ContractName::new` conjoins `len < 1` and
`len > 40`; no natural number satisfies both. -/
theorem length_precheck_unsat (n : Nat) :
    ¬(n < CONTRACT_MIN_NAME_LENGTH ∧ n > CONTRACT_MAX_NAME_LENGTH) := by
  simp only [CONTRACT_MIN_NAME_LENGTH, CONTRACT_MAX_NAME_LENGTH]
  omega

/-- `ContractName::new` always falls through its length pre-check, so it
is decided by the regex match alone. -/
theorem ContractName.new_eq_regexCase (s : List Char) :
    ContractName.new s =
      if contractNameRegexIsMatch s then Except.ok (ContractName.mk s)
      else Except.error ContractNameError.InvalidFormat := by
  unfold ContractName.new
  rw [if_neg (length_precheck_unsat (strLen s))]

/-- Characterisation of the regex language: a string matches iff it is an
ASCII letter followed by at most 39 characters of the rest class, or it
is the reserved literal `__transient`. -/
theorem regexIsMatch_iff (s : List Char) :
    contractNameRegexIsMatch s = true ↔
      (∃ a t, s = a :: t ∧ inClassAlpha a = true ∧ t.length ≤ 39
          ∧ t.all inClassRest = true)
      ∨ s = "__transient".toList := by
  cases s with
  | nil =>
      constructor
      · intro hm
        exact absurd hm (by decide)
      · rintro (⟨a, t, h, _⟩ | h)
        · exact absurd h (by simp)
        · exact absurd h (by decide)
  | cons a t =>
      simp only [contractNameRegexIsMatch, CONTRACT_MIN_NAME_LENGTH,
        CONTRACT_MAX_NAME_LENGTH, Bool.or_eq_true, Bool.and_eq_true,
        decide_eq_true_eq]
      constructor
      · rintro (⟨⟨⟨ha, _⟩, hlen⟩, hall⟩ | htr)
        · exact Or.inl ⟨a, t, rfl, ha, by omega, hall⟩
        · exact Or.inr htr
      · rintro (⟨a2, t2, heq, ha, hlen, hall⟩ | htr)
        · injection heq with h1 h2
          subst h1
          subst h2
          exact Or.inl ⟨⟨⟨ha, by omega⟩, by omega⟩, hall⟩
        · exact Or.inr htr

/-- Every character of the class `[a-zA-Z]` is also in the class
`[a-zA-Z0-9]|[-_]`. -/
theorem alpha_subset_rest (c : Char) (h : inClassAlpha c = true) :
    inClassRest c = true := by
  simp [inClassRest, h]

/-! Claim theorems. -/

/-- C1: soundness of validation — whenever `ContractName::new s` returns
`Ok`, either `1 ≤ len(s) ≤ 40` with the first character an ASCII letter
and every subsequent character an ASCII letter, digit, hyphen or
underscore, or `s` is exactly the literal `__transient`. -/
theorem C1_validation_sound (s : List Char) (c : ContractName)
    (h : ContractName.new s = Except.ok c) :
    (1 ≤ s.length ∧ s.length ≤ 40 ∧
      ∃ a t, s = a :: t ∧ inClassAlpha a = true
        ∧ ∀ x ∈ t, inClassRest x = true)
    ∨ s = "__transient".toList := by
  rw [ContractName.new_eq_regexCase] at h
  by_cases hm : contractNameRegexIsMatch s = true
  · rcases (regexIsMatch_iff s).mp hm with ⟨a, t, rfl, ha, hlen, hall⟩ | htr
    · refine Or.inl ⟨by simp, by simp; omega, a, t, rfl, ha, ?_⟩
      intro x hx
      exact List.all_eq_true.mp hall x hx
    · exact Or.inr htr
  · rw [if_neg hm] at h
    exact Except.noConfusion h

/-- C1 witness: the theorem applied at the accepted input `"abc"`. -/
theorem C1_validation_sound_witness :
    (1 ≤ ("abc".toList).length ∧ ("abc".toList).length ≤ 40 ∧
      ∃ a t, "abc".toList = a :: t ∧ inClassAlpha a = true
        ∧ ∀ x ∈ t, inClassRest x = true)
    ∨ "abc".toList = "__transient".toList :=
  C1_validation_sound "abc".toList (ContractName.mk "abc".toList) rfl

/-- C2: evaluating the code at a 41-character input (outside `[1, 40]`
and not `__transient`) shows the rejection carries `InvalidFormat`, not
the `InvalidLength` the claim states: the length pre-check conjoins its
two bound violations and never fires. -/
theorem C2_length_rejection_is_invalidFormat :
    ContractName.new (List.replicate 41 'a')
      = Except.error ContractNameError.InvalidFormat := rfl

/-- C3: completeness of rejection — a string longer than 40 characters,
or containing a character outside `[A-Za-z0-9_-]`, or whose first
character is not an ASCII letter, and which is not `__transient`, is
rejected by `ContractName::new`. -/
theorem C3_rejection_complete (s : List Char)
    (hne : s ≠ "__transient".toList)
    (hbad : 40 < s.length ∨ (∃ x ∈ s, inClassRest x = false)
        ∨ ∀ a t, s = a :: t → inClassAlpha a = false) :
    ∃ e, ContractName.new s = Except.error e := by
  refine ⟨ContractNameError.InvalidFormat, ?_⟩
  rw [ContractName.new_eq_regexCase, if_neg]
  intro hm
  rcases (regexIsMatch_iff s).mp hm with ⟨a, t, rfl, ha, hlen, hall⟩ | htr
  · rcases hbad with h40 | ⟨x, hx, hxbad⟩ | hfirst
    · simp only [List.length_cons] at h40
      omega
    · rcases List.mem_cons.mp hx with rfl | hxt
      · rw [alpha_subset_rest x ha] at hxbad
        exact Bool.noConfusion hxbad
      · rw [List.all_eq_true.mp hall x hxt] at hxbad
        exact Bool.noConfusion hxbad
    · rw [hfirst a t rfl] at ha
      exact Bool.noConfusion ha
  · exact hne htr

/-- C3 witness: the theorem applied at `"a+"`, which contains the
disallowed character +. -/
theorem C3_rejection_complete_witness :
    ∃ e, ContractName.new "a+".toList = Except.error e :=
  C3_rejection_complete "a+".toList (by decide)
    (Or.inr (Or.inl ⟨'+', by decide, by decide⟩))

/-- C4: the empty string is rejected with `InvalidFormat`, not
`InvalidLength`. -/
theorem C4_empty_invalidFormat :
    ContractName.new "".toList
      = Except.error ContractNameError.InvalidFormat := rfl

/-- C5: the reserved literal `__transient` is accepted even though its
first character, an underscore, is not in the first-character class of
the general grammar. -/
theorem C5_transient_accepted :
    ContractName.new "__transient".toList
      = Except.ok (ContractName.mk "__transient".toList)
    ∧ inClassAlpha '_' = false :=
  ⟨rfl, rfl⟩

/-- C6: boundary behaviour — every 40-character string satisfying the
grammar is accepted; every 41-character string is rejected; in
particular 40 repetitions of a succeed and 41 repetitions of a fail. -/
theorem C6_boundary :
    (∀ a t, inClassAlpha a = true → (∀ x ∈ t, inClassRest x = true) →
        (a :: t).length = 40 →
        ContractName.new (a :: t) = Except.ok (ContractName.mk (a :: t)))
    ∧ (∀ s : List Char, s.length = 41 →
        ∃ e, ContractName.new s = Except.error e)
    ∧ ContractName.new (List.replicate 40 'a')
        = Except.ok (ContractName.mk (List.replicate 40 'a'))
    ∧ ∃ e, ContractName.new (List.replicate 41 'a') = Except.error e := by
  refine ⟨?_, ?_, rfl, ContractNameError.InvalidFormat, rfl⟩
  · intro a t ha hall hlen
    rw [ContractName.new_eq_regexCase, if_pos]
    refine (regexIsMatch_iff (a :: t)).mpr (Or.inl ⟨a, t, rfl, ha, ?_, ?_⟩)
    · simp only [List.length_cons] at hlen
      omega
    · exact List.all_eq_true.mpr hall
  · intro s h41
    refine ⟨ContractNameError.InvalidFormat, ?_⟩
    rw [ContractName.new_eq_regexCase, if_neg]
    intro hm
    rcases (regexIsMatch_iff s).mp hm with ⟨a, t, rfl, _, hlen, _⟩ | htr
    · simp only [List.length_cons] at h41
      omega
    · rw [htr] at h41
      exact absurd h41 (by decide)

/-- C6 witness: the theorem applied at the 40-character string
a followed by 39 repetitions of b. -/
theorem C6_boundary_witness :
    ContractName.new ('a' :: List.replicate 39 'b')
      = Except.ok (ContractName.mk ('a' :: List.replicate 39 'b')) :=
  C6_boundary.1 'a' (List.replicate 39 'b') (by decide) (by decide)
    (by simp)

/-- C7: on success the `ContractName` wraps a copy of the input — the
wrapped string seen through `as_ref` equals the input; and
`"my-contract"` in particular is accepted and wraps `"my-contract"`. -/
theorem C7_ok_wraps_input :
    (∀ s c, ContractName.new s = Except.ok c → c.as_ref = s)
    ∧ ContractName.new "my-contract".toList
        = Except.ok (ContractName.mk "my-contract".toList)
    ∧ (ContractName.mk "my-contract".toList).as_ref
        = "my-contract".toList := by
  refine ⟨?_, rfl, rfl⟩
  intro s c h
  rw [ContractName.new_eq_regexCase] at h
  by_cases hm : contractNameRegexIsMatch s = true
  · rw [if_pos hm] at h
    injection h with h1
    rw [← h1]
    rfl
  · rw [if_neg hm] at h
    exact Except.noConfusion h

/-- C7 witness: the theorem applied at `"my-contract"`. -/
theorem C7_ok_wraps_input_witness :
    (ContractName.mk "my-contract".toList).as_ref = "my-contract".toList :=
  C7_ok_wraps_input.1 "my-contract".toList
    (ContractName.mk "my-contract".toList) rfl

/-- C8: idempotence — re-validating the string representation of a
`ContractName` obtained from a successful `ContractName::new` yields an
equal `ContractName`. -/
theorem C8_validation_idempotent (s : List Char) (c : ContractName)
    (h : ContractName.new s = Except.ok c) :
    ContractName.new c.as_ref = Except.ok c := by
  rw [ContractName.new_eq_regexCase] at h
  by_cases hm : contractNameRegexIsMatch s = true
  · rw [if_pos hm] at h
    injection h with h1
    subst h1
    rw [show (ContractName.mk s).as_ref = s from rfl,
      ContractName.new_eq_regexCase, if_pos hm]
  · rw [if_neg hm] at h
    exact Except.noConfusion h

/-- C8 witness: the theorem applied at the accepted input `"token-a"`. -/
theorem C8_validation_idempotent_witness :
    ContractName.new (ContractName.mk "token-a".toList).as_ref
      = Except.ok (ContractName.mk "token-a".toList) :=
  C8_validation_idempotent "token-a".toList
    (ContractName.mk "token-a".toList) rfl

/-- C9: `StandardPrincipalData::new` is total and stores exactly the
given pair, and a `PrincipalData::Contract` built from any standard
principal and the `ContractName` validated from `"token-v2"` has
contract-name component `"token-v2"`. -/
theorem C9_principal_composition :
    (∀ v a, StandardPrincipalData.new v a = StandardPrincipalData.mk v a)
    ∧ ∀ (p : StandardPrincipalData) (c : ContractName),
        ContractName.new "token-v2".toList = Except.ok c →
        (PrincipalData.Contract p c).contractNameOf = some c
          ∧ c.as_ref = "token-v2".toList := by
  refine ⟨fun v a => rfl, ?_⟩
  intro p c h
  have h0 : (Except.ok (ContractName.mk "token-v2".toList)
      : Except ContractNameError ContractName) = Except.ok c := by
    rw [← h]
    rfl
  injection h0 with h1
  subst h1
  exact ⟨rfl, rfl⟩

/-- C9 witness: the theorem applied at a concrete version, address and
the validated name `"token-v2"`. -/
theorem C9_principal_composition_witness :
    (PrincipalData.Contract
        (StandardPrincipalData.mk (AddressVersion.mk 0) (StacksAddress.mk []))
        (ContractName.mk "token-v2".toList)).contractNameOf
      = some (ContractName.mk "token-v2".toList)
    ∧ (ContractName.mk "token-v2".toList).as_ref = "token-v2".toList :=
  C9_principal_composition.2
    (StandardPrincipalData.mk (AddressVersion.mk 0) (StacksAddress.mk []))
    (ContractName.mk "token-v2".toList) rfl

/-- C10: the `InvalidLength` branch is unreachable — every call to
`ContractName::new` either succeeds or fails with `InvalidFormat`. -/
theorem C10_invalidLength_unreachable (s : List Char) :
    (∃ c, ContractName.new s = Except.ok c)
    ∨ ContractName.new s = Except.error ContractNameError.InvalidFormat := by
  rw [ContractName.new_eq_regexCase]
  by_cases hm : contractNameRegexIsMatch s = true
  · exact Or.inl ⟨ContractName.mk s, by rw [if_pos hm]⟩
  · exact Or.inr (by rw [if_neg hm])
